import Mathlib

/-!
Verification development for the `lark-cli` repository
(`src/larkDocService.js`, `src/cli.js`).

The JavaScript source is shallowly embedded: strings are modelled as
`List Char` (JS strings are sequences of UTF-16 code units; none of the
verified claims depends on surrogate-pair subtleties), JS objects become
Lean structures with `Option` fields standing for possibly-absent object
properties, asynchronous remote calls become values supplied by an
environment record plus an explicit trace of issued API calls, and a JS
function that can `throw` returns `Except String`.
-/

namespace LarkCli

/-! ## Block data model (`larkDocService.js`)

A paragraph block produced by `toParagraphBlock` is the JS object
`{ block_type: 2, text: { elements: [ { text_run: { content } } ] } }`.
A reshaped/converted block additionally may carry `children`; `block_id`
and `parent_id` are modelled as `Option` fields so that their stripping
by `_reshapeConvertedBlocks` is observable in the output type. -/

structure TextRun where
  content : List Char
deriving DecidableEq

structure TextElement where
  text_run : TextRun
deriving DecidableEq

structure TextBody where
  elements : List TextElement
deriving DecidableEq

inductive JBlock where
  | mk (block_id : Option String) (parent_id : Option String)
       (block_type : Option Nat) (text : Option TextBody)
       (children : Option (List JBlock))

def JBlock.blockId : JBlock → Option String
  | .mk bid _ _ _ _ => bid

def JBlock.parentId : JBlock → Option String
  | .mk _ pid _ _ _ => pid

def JBlock.childrenOf : JBlock → Option (List JBlock)
  | .mk _ _ _ _ cs => cs

/-- The paragraph-block object literal built by `toParagraphBlock`
(`larkDocService.js:28` and `larkDocService.js:50`). -/
def mkParagraph (line : List Char) : JBlock :=
  JBlock.mk none none (some 2) (some ⟨[⟨⟨line⟩⟩]⟩) none

/-- The text content of a block: concatenation of its `text_run` contents. -/
def blockText : JBlock → List Char
  | .mk _ _ _ none _ => []
  | .mk _ _ _ (some body) _ => (body.elements.map (fun e => e.text_run.content)).flatten

/-- Concatenation of the text contents of a block sequence, in order. -/
def blocksConcat (bs : List JBlock) : List Char :=
  (bs.map blockText).flatten

/-! ## Block Builder (`toParagraphBlock`, `processTextToBlocks`) -/

/-- `MAX_CHUNK_SIZE` constant of `toParagraphBlock` (`larkDocService.js:24`). -/
def MAX_CHUNK_SIZE : Nat := 10000

/-- `text.split(/\r?\n/)` (`larkDocService.js:70`): split on `\n`,
consuming one immediately preceding `\r` together with it. -/
def splitLines : List Char → List (List Char)
  | [] => [[]]
  | '\r' :: '\n' :: rest => [] :: splitLines rest
  | '\n' :: rest => [] :: splitLines rest
  | ch :: rest =>
    match splitLines rest with
    | [] => [[ch]]
    | l :: ls => (ch :: l) :: ls

/-- The `while` loop of `toParagraphBlock` (`larkDocService.js:46`):
repeatedly take `c`-sized chunks.  The extra fuel argument makes the
recursion structural; `chunkLine` supplies `line.length` fuel, which is
enough whenever `0 < c` (the source uses the constant 10000; with `c = 0`
the JS loop would not terminate, and the fuel runs out instead). -/
def chunkLineFuel : Nat → Nat → List Char → List (List Char)
  | 0, _, _ => []
  | _ + 1, _, [] => []
  | fuel + 1, c, line => line.take c :: chunkLineFuel fuel c (line.drop c)

def chunkLine (c : Nat) (line : List Char) : List (List Char) :=
  chunkLineFuel line.length c line

/-- `toParagraphBlock` (`larkDocService.js:23`) with the character limit as
a parameter; the source fixes it to `MAX_CHUNK_SIZE`.  Returns either a
single block (`Sum.inl`) or an array of blocks (`Sum.inr`), as the JS
function does. -/
def toParagraphBlockC (c : Nat) (line : List Char) : JBlock ⊕ List JBlock :=
  if line.length ≤ c then Sum.inl (mkParagraph line)
  else Sum.inr ((chunkLine c line).map mkParagraph)

/-- The per-line block list pushed by the loop of `processTextToBlocks`
(`larkDocService.js:73`): a single block is pushed as one element, an
array is spread. -/
def lineBlocks (c : Nat) (line : List Char) : List JBlock :=
  match toParagraphBlockC c line with
  | Sum.inl b => [b]
  | Sum.inr bs => bs

/-- `processTextToBlocks` (`larkDocService.js:69`) with the character
limit as a parameter. -/
def processTextToBlocksC (c : Nat) (text : List Char) : List JBlock :=
  ((splitLines text).map (lineBlocks c)).flatten

/-- `processTextToBlocks` as in the source (limit `MAX_CHUNK_SIZE`). -/
def processTextToBlocks (text : List Char) : List JBlock :=
  processTextToBlocksC MAX_CHUNK_SIZE text

/-- The input text with every line-terminator sequence (`\r\n` or `\n`)
removed; used to state what concatenating the Block Builder's output
actually reproduces. -/
def removeEols : List Char → List Char
  | [] => []
  | '\r' :: '\n' :: rest => removeEols rest
  | '\n' :: rest => removeEols rest
  | ch :: rest => ch :: removeEols rest

/-! ## Block-Tree Reshaper (`_reshapeConvertedBlocks`)

The markdown-conversion response carries an array of raw block records;
each record has its own `block_id`, a `parent_id`, an optional list of
child ids and type-specific payload fields (`block_type`, `text`). -/

structure RawBlock where
  block_id : String
  parent_id : Option String
  block_type : Option Nat
  text : Option TextBody
  children : Option (List String)
deriving DecidableEq

/-- `response?.data` of the convert call (`larkDocService.js:307`):
`blocks` (absent when the response is malformed) and
`first_level_block_ids`. -/
structure ConvData where
  blocks : Option (List RawBlock)
  first_level_block_ids : Option (List String)
deriving DecidableEq

/-- The id-indexed map built by the `reduce` at `larkDocService.js:326`:
a record is entered only when its `block_id` is truthy (modelled as
non-empty), and a later record overwrites an earlier one with the same
id (the later entry is consed in front and lookup takes the first hit). -/
def buildBlockMap (blocks : List RawBlock) : List (String × RawBlock) :=
  blocks.foldl
    (fun acc b => if b.block_id ≠ "" then (b.block_id, b) :: acc else acc) []

/-- `blockMap?.[blockId]` (`larkDocService.js:335`). -/
def lookupBlock (m : List (String × RawBlock)) (blockId : String) : Option RawBlock :=
  (m.find? (fun p => p.1 = blockId)).map (fun p => p.2)

/-- `buildBlock` (`larkDocService.js:334`): resolve the id (absent ids
yield `none` and are later dropped), strip `block_id` and `parent_id`,
recursively build the children and attach them only when the resolved
child list is non-empty.  The fuel argument makes the recursion
structural; `_reshapeConvertedBlocks` supplies one unit of fuel per block
of the response plus one, which is enough for every acyclic map (the JS
recursion has no cycle guard and would overflow the stack on cyclic
input; the spec documents that case as undefined behaviour). -/
def buildBlock (m : List (String × RawBlock)) : Nat → String → Option JBlock
  | 0, _ => none
  | fuel + 1, blockId =>
    match lookupBlock m blockId with
    | none => none
    | some b =>
      let childBlocks := (b.children.getD []).filterMap (fun cid => buildBlock m fuel cid)
      some (JBlock.mk none none b.block_type b.text
        (if childBlocks.isEmpty then none else some childBlocks))

/-- `_reshapeConvertedBlocks` (`larkDocService.js:319`): returns `[]`
when `blocks` is absent or the root-id list is absent or empty; otherwise
builds each root id and drops the unresolved ones
(`.map(buildBlock).filter(Boolean)`). -/
def _reshapeConvertedBlocks (d : ConvData) : List JBlock :=
  match d.blocks, d.first_level_block_ids with
  | some bl, some ids =>
    if ids.isEmpty then []
    else ids.filterMap (buildBlock (buildBlockMap bl) (bl.length + 1))
  | _, _ => []

/-- The property that no block of a tree — at any depth — carries a
`block_id` or `parent_id` field. -/
inductive NoIds : JBlock → Prop where
  | intro (bt : Option Nat) (tx : Option TextBody) (cs : Option (List JBlock)) :
      (∀ b ∈ cs.getD [], NoIds b) → NoIds (JBlock.mk none none bt tx cs)

/-! ## Remote environment and API-call traces

Every remote call the service issues is recorded in a trace.  The
responses the remote side would give are supplied by an `Env` record;
the verified claims are all stated relative to such an environment. -/

inductive ApiCall where
  | documentCreate (title : List Char)
  | documentConvert (content : List Char)
  | documentBlockList
  | blockChildrenCreate (index : Nat) (children : List JBlock)
  | wikiMove (spaceId : String) (nodeId : String)
  | driveDelete (documentId : String)

def apiIsInsert : ApiCall → Bool
  | .blockChildrenCreate _ _ => true
  | _ => false

def apiIsDelete : ApiCall → Bool
  | .driveDelete _ => true
  | _ => false

/-- Child-count-per-insert-call summary of a trace. -/
def insertChildCounts (t : List ApiCall) : List Nat :=
  t.filterMap (fun c => match c with
    | .blockChildrenCreate _ ch => some ch.length
    | _ => none)

/-- A block of the document-blocks listing (`_getDocumentBlocks` items):
only its `page` marker (truthiness of `block.page`) and its `children`
id list matter to the insert/append paths. -/
structure DocBlock where
  block_id : String
  page : Bool
  children : Option (List String)
deriving DecidableEq

structure WikiNode where
  node_token : String
deriving DecidableEq

structure DocumentRecord where
  document_id : String
  title : String
  revision_id : Nat
deriving DecidableEq

/-- What the remote side answers: the markdown-convert response (or a
rejection), the items of the document-blocks listing, the create
response (`none` models a response missing the document record), and the
wiki-move response (`Except.error` models a rejected call, `Except.ok
none` a response without a node). -/
structure Env where
  convertResult : Except String ConvData
  docBlocks : List DocBlock
  createResponse : Option DocumentRecord
  moveResult : Except String (Option WikiNode)

/-- `documentBlocks.find((block) => block?.page)` (`larkDocService.js:199`
and `larkDocService.js:238`). -/
def pageBlockOf (env : Env) : Option DocBlock :=
  env.docBlocks.find? (fun b => b.page)

/-- `pageBlock?.children?.length || 0` (`larkDocService.js:201`). -/
def childCount (pb : DocBlock) : Nat :=
  (pb.children.getD []).length

/-- `_getPageBlock` (`larkDocService.js:374`): throws when the listing
holds no page block.  (This helper is defined but never called by the
insert/append paths in the source.) -/
def _getPageBlock (docBlocks : List DocBlock) : Except String DocBlock :=
  match docBlocks.find? (fun b => b.page) with
  | some pb => Except.ok pb
  | none => Except.error "Unable to locate page block for document"

/-! ## Markdown conversion path (`_convertContentToBlocks`) -/

/-- `_convertContentToBlocks` (`larkDocService.js:292`): on a rejected
convert call, or when reshaping yields no blocks, fall back to
`processTextToBlocks` on the raw content. -/
def _convertContentToBlocks (r : Except String ConvData) (content : List Char) :
    List JBlock :=
  match r with
  | .error _ => processTextToBlocks content
  | .ok d =>
    let normalizedBlocks := _reshapeConvertedBlocks d
    if normalizedBlocks.length ≠ 0 then normalizedBlocks
    else processTextToBlocks content

/-- Step 1 of the insert/append paths: the blocks obtained from the
content, depending on the `isMarkdown` flag. -/
def contentBlocks (env : Env) (content : List Char) (isMarkdown : Bool) : List JBlock :=
  if isMarkdown then _convertContentToBlocks env.convertResult content
  else processTextToBlocks content

/-- The remote calls issued by step 1: only the markdown path calls the
convert endpoint. -/
def convCallsOf (content : List Char) (isMarkdown : Bool) : List ApiCall :=
  if isMarkdown then [ApiCall.documentConvert content] else []

/-! ## Batch Dispatcher (`_insertContentToDocument`, step 3) -/

structure InsertCall where
  index : Nat
  children : List JBlock

/-- `MAX_BLOCKS_PER_CALL` (`larkDocService.js:243`). -/
def MAX_BLOCKS_PER_CALL : Nat := 50

/-- The chunking `for` loop of `_insertContentToDocument`
(`larkDocService.js:265`): slice off 50 blocks, issue a call at
`currentIndex`, advance `currentIndex` by the chunk length.  The fuel
argument makes the recursion structural; `blocks.length` fuel is enough
since every iteration consumes at least one block. -/
def insertLoopFuel : Nat → Nat → List JBlock → List InsertCall
  | 0, _, _ => []
  | _ + 1, _, [] => []
  | fuel + 1, currentIndex, blocks =>
    ⟨currentIndex, blocks.take MAX_BLOCKS_PER_CALL⟩ ::
      insertLoopFuel fuel (currentIndex + (blocks.take MAX_BLOCKS_PER_CALL).length)
        (blocks.drop MAX_BLOCKS_PER_CALL)

/-- The insert calls issued by `_insertContentToDocument` once the page
block is found: one call when at most 50 blocks
(`larkDocService.js:245`), otherwise the chunking loop. -/
def insertCalls (childrenCount : Nat) (blocks : List JBlock) : List InsertCall :=
  if blocks.length ≤ MAX_BLOCKS_PER_CALL then [⟨childrenCount, blocks⟩]
  else insertLoopFuel blocks.length childrenCount blocks

def toApiCalls (cs : List InsertCall) : List ApiCall :=
  cs.map (fun c => ApiCall.blockChildrenCreate c.index c.children)

/-- A call sequence is well-indexed from `start` when each call's
insertion index equals `start` plus the number of blocks carried by the
calls before it. -/
def callsWellIndexed (start : Nat) : List InsertCall → Prop
  | [] => True
  | call :: rest => call.index = start ∧ callsWellIndexed (start + call.children.length) rest

/-! ## Document Service operations -/

/-- The remote calls issued by `_insertContentToDocument`
(`larkDocService.js:222`): convert (markdown only), the block listing,
then the batched insert calls — but only when the listing is non-empty
and holds a page block; otherwise the function returns without inserting
and without raising. -/
def _insertContentTrace (env : Env) (content : List Char) (isMarkdown : Bool) :
    List ApiCall :=
  let blocks := contentBlocks env content isMarkdown
  let pre := convCallsOf content isMarkdown ++ [ApiCall.documentBlockList]
  if env.docBlocks.length > 0 then
    match pageBlockOf env with
    | some pageBlock => pre ++ toApiCalls (insertCalls (childCount pageBlock) blocks)
    | none => pre
  else pre

/-- `_insertContentToDocument` as the JS async function: it can reject,
but — given the environment's responses — it always resolves with its
trace. -/
def _insertContentToDocument (env : Env) (content : List Char) (isMarkdown : Bool) :
    Except String (List ApiCall) :=
  Except.ok (_insertContentTrace env content isMarkdown)

/-- The remote calls issued by `_appendContentToDocument`
(`larkDocService.js:184`): same resolution of the page block, but a
single `documentBlockChildren.create` call carrying all the blocks at
the page block's current child count — this path has no chunking
loop. -/
def _appendContentTrace (env : Env) (content : List Char) (isMarkdown : Bool) :
    List ApiCall :=
  let blocks := contentBlocks env content isMarkdown
  let pre := convCallsOf content isMarkdown ++ [ApiCall.documentBlockList]
  if env.docBlocks.length > 0 then
    match pageBlockOf env with
    | some pageBlock =>
      pre ++ [ApiCall.blockChildrenCreate (childCount pageBlock) blocks]
    | none => pre
  else pre

/-- `_appendContentToDocument` as the JS async function. -/
def _appendContentToDocument (env : Env) (content : List Char) (isMarkdown : Bool) :
    Except String (List ApiCall) :=
  Except.ok (_appendContentTrace env content isMarkdown)

/-- `appendDocumentContent` (`larkDocService.js:175`): `if (!rawText)
return;` — empty text short-circuits before any conversion or remote
call. -/
def appendDocumentContent (env : Env) (rawText : List Char) (isMarkdown : Bool) :
    Except String (List ApiCall) :=
  if rawText.isEmpty then Except.ok []
  else _appendContentToDocument env rawText isMarkdown

/-- The result record of `createDocument`: the created document, plus the
wiki fields that are present only on the spread-with-wiki return
(`larkDocService.js:128`). -/
structure CreateResult where
  document : DocumentRecord
  wiki_node_token : Option String
  moved_to_wiki : Bool
deriving DecidableEq

/-- `createDocument` (`larkDocService.js:100`): create (throwing when the
response carries no document id), optionally insert content (which,
given the environment's responses, always resolves — so its bind is
collapsed to its trace), then — when a wiki target is fully supplied
(`moveToWiki && wikiSpaceId && wikiNodeId`) — attempt the move; on a
successful move delete the original and return the augmented record; on
a rejected move, or a move response without a node, keep and return the
original document unchanged. -/
def createDocument (env : Env) (title : List Char) (content : Option (List Char))
    (isMarkdown : Bool) (moveToWiki : Bool) (wikiSpaceId wikiNodeId : String) :
    Except String (CreateResult × List ApiCall) :=
  match env.createResponse with
  | none => Except.error "Unable to create document. Response missing document id"
  | some document =>
    if document.document_id = "" then
      Except.error "Unable to create document. Response missing document id"
    else
      let createCall := [ApiCall.documentCreate title]
      let insertPart : List ApiCall := match content with
        | some c => _insertContentTrace env c isMarkdown
        | none => []
      if moveToWiki ∧ wikiSpaceId ≠ "" ∧ wikiNodeId ≠ "" then
        match env.moveResult with
        | .ok (some node) =>
          Except.ok (⟨document, some node.node_token, true⟩,
            createCall ++ insertPart ++
              [ApiCall.wikiMove wikiSpaceId wikiNodeId,
               ApiCall.driveDelete document.document_id])
        | .ok none =>
          Except.ok (⟨document, none, false⟩,
            createCall ++ insertPart ++ [ApiCall.wikiMove wikiSpaceId wikiNodeId])
        | .error _ =>
          Except.ok (⟨document, none, false⟩,
            createCall ++ insertPart ++ [ApiCall.wikiMove wikiSpaceId wikiNodeId])
      else
        Except.ok (⟨document, none, false⟩, createCall ++ insertPart)

/-! ## Collaborators (`cli.js`) -/

structure CollaboratorEntry where
  memberType : String
  memberId : String
  perm : String
deriving DecidableEq

/-- `parseCollaboratorEntry` (`cli.js:95`): blank input yields `null`,
fewer than two `:`-separated parts is an error, the permission defaults
to `"edit"`. -/
def parseCollaboratorEntry (entry : String) : Except String (Option CollaboratorEntry) :=
  let value := entry.trim
  if value = "" then Except.ok none
  else
    let parts := value.splitOn ":"
    if parts.length < 2 then
      Except.error ("Invalid collaborator definition: \"" ++ value ++
        "\". Use memberType:memberId[:perm]")
    else
      let memberType := (parts.get? 0).getD ""
      let memberId := (parts.get? 1).getD ""
      let perm := (parts.get? 2).getD ""
      Except.ok (some ⟨memberType, memberId, if perm = "" then "edit" else perm⟩)

/-- Modelled from the spec: `addCollaborators(id, list)` is described by
the spec (§4.4: "for each entry, issues a best-effort add call; one
entry's failure is logged and does not block subsequent entries") but is
absent from `src/` — only the CLI-side `parseCollaboratorEntry` exists
there.  The model iterates the entries in order, issues one add call per
entry whose success is given by `callSucceeds`, records each per-entry
outcome, and never aborts on a failure. -/
def addCollaborators (callSucceeds : CollaboratorEntry → Bool)
    (entries : List CollaboratorEntry) : List (CollaboratorEntry × Bool) :=
  entries.map (fun e => (e, callSucceeds e))

/-! ## Concrete fixtures used by counterexamples and witnesses -/

/-- A root-container ("page") block with no children yet. -/
def pageOnlyDoc : DocBlock := ⟨"page1", true, none⟩

/-- An environment whose listing holds exactly the empty page block and
whose markdown-convert call rejects. -/
def envPage : Env := ⟨Except.error "net", [pageOnlyDoc], none, Except.error "net"⟩

/-- A listing block that is not a page block. -/
def nonPageDoc : DocBlock := ⟨"b1", false, none⟩

/-- An environment whose listing holds no page block. -/
def envNoPage : Env := ⟨Except.error "net", [nonPageDoc], none, Except.error "net"⟩

/-- 51 one-character lines (`"a\n"` fifty times, then `"a"`): plain-text
conversion yields 51 blocks, more than `MAX_BLOCKS_PER_CALL`. -/
def content51 : List Char := (List.replicate 50 ['a', '\n']).flatten ++ ['a']

/-- A created document record. -/
def docA : DocumentRecord := ⟨"doc1", "T", 1⟩

/-- An environment where document creation succeeds and the wiki move
rejects. -/
def envC8 : Env := ⟨Except.error "net", [], some docA, Except.error "movefail"⟩

/-- A raw converted root block with one resolvable child (`"c"`) and one
dangling child reference (`"missing"`). -/
def rawRoot : RawBlock := ⟨"r", none, some 2, some ⟨[⟨⟨['h']⟩⟩]⟩, some ["c", "missing"]⟩

/-- The raw converted child block of `rawRoot`. -/
def rawChild : RawBlock := ⟨"c", some "r", some 2, some ⟨[⟨⟨['i']⟩⟩]⟩, none⟩

/-- A conversion response: the two raw blocks above, with root ordering
`["r", "zzz"]` where `"zzz"` does not resolve. -/
def convSample : ConvData := ⟨some [rawRoot, rawChild], some ["r", "zzz"]⟩

/-- The reshaped form of `rawChild`: ids stripped, no children field. -/
def sampleChildOut : JBlock := JBlock.mk none none (some 2) (some ⟨[⟨⟨['i']⟩⟩]⟩) none

/-- The reshaped form of `rawRoot`: ids stripped, the dangling child
dropped, the resolved child attached. -/
def sampleOut : JBlock := JBlock.mk none none (some 2) (some ⟨[⟨⟨['h']⟩⟩]⟩) (some [sampleChildOut])

/-- Three collaborator entries for the continue-on-error scenario. -/
def collabA : CollaboratorEntry := ⟨"openid", "u1", "edit"⟩

def collabB : CollaboratorEntry := ⟨"openid", "u2", "edit"⟩

def collabC : CollaboratorEntry := ⟨"email", "u3", "view"⟩

/-- An add-call outcome where exactly the entry with member id `"u2"`
fails. -/
def failSecond : CollaboratorEntry → Bool := fun e => e.memberId != "u2"

/-! ## Supporting lemmas: line splitting -/

lemma splitLines_cons (ch : Char) (rest : List Char)
    (h1 : ∀ (r : List Char), ch = '\r' → rest = '\n' :: r → False)
    (h2 : ¬ ch = '\n') :
    splitLines (ch :: rest) =
      (match splitLines rest with
       | [] => [[ch]]
       | l :: ls => (ch :: l) :: ls) := by
  rw [splitLines.eq_def]
  split
  · rename_i heq; exact absurd heq (List.cons_ne_nil _ _)
  · rename_i r heq
    injection heq with hch hrest
    exact (h1 r hch hrest).elim
  · rename_i r heq
    injection heq with hch hrest
    exact absurd hch h2
  · rename_i a b h3 h4 heq
    injection heq with hch hrest
    subst hch; subst hrest; rfl

lemma removeEols_cons (ch : Char) (rest : List Char)
    (h1 : ∀ (r : List Char), ch = '\r' → rest = '\n' :: r → False)
    (h2 : ¬ ch = '\n') :
    removeEols (ch :: rest) = ch :: removeEols rest := by
  rw [removeEols.eq_def]
  split
  · rename_i heq; exact absurd heq (List.cons_ne_nil _ _)
  · rename_i r heq
    injection heq with hch hrest
    exact (h1 r hch hrest).elim
  · rename_i r heq
    injection heq with hch hrest
    exact absurd hch h2
  · rename_i a b h3 h4 heq
    injection heq with hch hrest
    subst hch; subst hrest; rfl

lemma splitLines_ne_nil (text : List Char) : splitLines text ≠ [] := by
  induction text using splitLines.induct with
  | case1 => simp [splitLines]
  | case2 rest ih => simp [splitLines]
  | case3 rest ih => simp [splitLines]
  | case4 ch rest h1 h2 hnil ih => rw [splitLines_cons ch rest h1 h2, hnil]; simp
  | case5 ch rest h1 h2 l ls hcons ih => rw [splitLines_cons ch rest h1 h2, hcons]; simp

/-- Joining the lines produced by `splitLines` recovers the input with
its line terminators removed (`split` discards the separators). -/
lemma splitLines_flatten (text : List Char) :
    (splitLines text).flatten = removeEols text := by
  induction text using splitLines.induct with
  | case1 => simp [splitLines, removeEols]
  | case2 rest ih => simp [splitLines, removeEols, ih]
  | case3 rest ih => simp [splitLines, removeEols, ih]
  | case4 ch rest h1 h2 hnil ih => exact absurd hnil (splitLines_ne_nil rest)
  | case5 ch rest h1 h2 l ls hcons ih =>
    rw [splitLines_cons ch rest h1 h2, hcons, removeEols_cons ch rest h1 h2, ← ih, hcons]
    simp

/-! ## Supporting lemmas: chunking and the Block Builder -/

lemma blockText_mkParagraph (l : List Char) : blockText (mkParagraph l) = l := by
  simp [blockText, mkParagraph]

lemma blocksConcat_append (a b : List JBlock) :
    blocksConcat (a ++ b) = blocksConcat a ++ blocksConcat b := by
  simp [blocksConcat]

lemma chunkLineFuel_flatten {c : Nat} (hc : 0 < c) :
    ∀ (fuel : Nat) (line : List Char), line.length ≤ fuel →
      (chunkLineFuel fuel c line).flatten = line := by
  intro fuel
  induction fuel with
  | zero =>
    intro line h
    have hline : line = [] := List.eq_nil_of_length_eq_zero (Nat.le_zero.mp h)
    subst hline; simp [chunkLineFuel]
  | succ n ih =>
    intro line h
    cases line with
    | nil => simp [chunkLineFuel]
    | cons a as =>
      have hdrop : (List.drop c (a :: as)).length ≤ n := by
        simp only [List.length_drop, List.length_cons]
        simp only [List.length_cons] at h
        omega
      calc (chunkLineFuel (n + 1) c (a :: as)).flatten
          = List.take c (a :: as) ++ (chunkLineFuel n c (List.drop c (a :: as))).flatten := by
            simp [chunkLineFuel]
        _ = List.take c (a :: as) ++ List.drop c (a :: as) := by rw [ih _ hdrop]
        _ = a :: as := List.take_append_drop _ _

lemma chunkLineFuel_sizes :
    ∀ (fuel c : Nat) (line : List Char), ∀ s ∈ chunkLineFuel fuel c line, s.length ≤ c := by
  intro fuel
  induction fuel with
  | zero => intro c line s hs; simp [chunkLineFuel] at hs
  | succ n ih =>
    intro c line s hs
    cases line with
    | nil => simp [chunkLineFuel] at hs
    | cons a as =>
      simp only [chunkLineFuel, List.mem_cons] at hs
      rcases hs with rfl | hs
      · rw [List.length_take]
        exact Nat.min_le_left _ _
      · exact ih c _ s hs

lemma chunkLineFuel_ne_nil {fuel c : Nat} {line : List Char} (hf : 0 < fuel)
    (hl : line ≠ []) : chunkLineFuel fuel c line ≠ [] := by
  cases fuel with
  | zero => simp at hf
  | succ n =>
    cases line with
    | nil => exact absurd rfl hl
    | cons a as => simp [chunkLineFuel]

lemma chunkLine_two {c : Nat} {line : List Char} (hc : 0 < c) (hlen : c < line.length) :
    2 ≤ (chunkLine c line).length := by
  unfold chunkLine
  cases line with
  | nil => simp at hlen
  | cons a as =>
    simp only [List.length_cons] at hlen
    show 2 ≤ (chunkLineFuel (as.length + 1) c (a :: as)).length
    simp only [chunkLineFuel]
    have hdrop_ne : List.drop c (a :: as) ≠ [] := by
      intro hE
      have hL := congrArg List.length hE
      simp only [List.length_drop, List.length_cons, List.length_nil] at hL
      omega
    have hn : 0 < as.length := by omega
    have hne := @chunkLineFuel_ne_nil as.length c (List.drop c (a :: as)) hn hdrop_ne
    cases hE : chunkLineFuel as.length c (List.drop c (a :: as)) with
    | nil => exact absurd hE hne
    | cons y ys => simp

lemma lineBlocks_eq_single {c : Nat} {line : List Char} (h : line.length ≤ c) :
    lineBlocks c line = [mkParagraph line] := by
  unfold lineBlocks toParagraphBlockC
  rw [if_pos h]

lemma lineBlocks_eq_chunks {c : Nat} {line : List Char} (h : ¬ line.length ≤ c) :
    lineBlocks c line = (chunkLine c line).map mkParagraph := by
  unfold lineBlocks toParagraphBlockC
  rw [if_neg h]

lemma lineBlocks_concat {c : Nat} (hc : 0 < c) (line : List Char) :
    blocksConcat (lineBlocks c line) = line := by
  by_cases h : line.length ≤ c
  · rw [lineBlocks_eq_single h]
    simp [blocksConcat, blockText_mkParagraph]
  · rw [lineBlocks_eq_chunks h]
    unfold blocksConcat
    rw [List.map_map]
    have hcomp : (blockText ∘ mkParagraph) = id := funext blockText_mkParagraph
    rw [hcomp, List.map_id]
    exact chunkLineFuel_flatten hc line.length line le_rfl

lemma lineBlocks_sizes {c : Nat} {line : List Char} :
    ∀ b ∈ lineBlocks c line, (blockText b).length ≤ c := by
  intro b hb
  by_cases h : line.length ≤ c
  · rw [lineBlocks_eq_single h] at hb
    simp only [List.mem_singleton] at hb
    subst hb; rw [blockText_mkParagraph]; exact h
  · rw [lineBlocks_eq_chunks h] at hb
    rw [List.mem_map] at hb
    obtain ⟨s, hs, rfl⟩ := hb
    rw [blockText_mkParagraph]
    exact chunkLineFuel_sizes _ _ _ s hs

lemma processTextToBlocksC_concat {c : Nat} (hc : 0 < c) (text : List Char) :
    blocksConcat (processTextToBlocksC c text) = removeEols text := by
  unfold processTextToBlocksC
  rw [← splitLines_flatten]
  generalize splitLines text = lines
  induction lines with
  | nil => simp [blocksConcat]
  | cons l ls ih =>
    simp only [List.map_cons, List.flatten_cons]
    rw [blocksConcat_append, ih, lineBlocks_concat hc]

lemma processTextToBlocksC_sizes {c : Nat} {text : List Char} :
    ∀ b ∈ processTextToBlocksC c text, (blockText b).length ≤ c := by
  intro b hb
  unfold processTextToBlocksC at hb
  rw [List.mem_flatten] at hb
  obtain ⟨bs, hbs, hb⟩ := hb
  rw [List.mem_map] at hbs
  obtain ⟨line, _, rfl⟩ := hbs
  exact lineBlocks_sizes b hb

/-! ## Claims C1, C9, C10 -/

/-- Claim C1, counterexample: on the input `"a\nb"` the Block Builder's
output concatenates to `"ab"`, not the input — `split(/\r?\n/)` discards
the separators, so concatenation does not reproduce an input containing
a newline. -/
theorem C1_counterexample :
    blocksConcat (processTextToBlocks ['a', '\n', 'b']) = ['a', 'b']
    ∧ ['a', 'b'] ≠ ['a', '\n', 'b'] :=
  ⟨rfl, by decide⟩

/-- Claim C1 (amended): for every input text, concatenating the text
contents of `processTextToBlocks`'s output in order reproduces the input
with its line-terminator sequences (`\r\n` or `\n`) removed —
equivalently, each line is reproduced exactly and in order — and no
single block's text content exceeds the character limit
`MAX_CHUNK_SIZE = 10000`. -/
theorem C1_block_builder (text : List Char) :
    blocksConcat (processTextToBlocks text) = removeEols text
    ∧ ∀ b ∈ processTextToBlocks text, (blockText b).length ≤ MAX_CHUNK_SIZE := by
  constructor
  · exact processTextToBlocksC_concat (by decide) text
  · exact fun b hb => processTextToBlocksC_sizes b hb

/-- Witness for C1: concrete evaluation on the input `"hi\ny"`. -/
theorem C1_block_builder_witness :
    blocksConcat (processTextToBlocks ['h', 'i', '\n', 'y']) = removeEols ['h', 'i', '\n', 'y']
    ∧ (blockText (mkParagraph ['h', 'i'])).length ≤ MAX_CHUNK_SIZE := by
  constructor
  · exact (C1_block_builder ['h', 'i', '\n', 'y']).1
  · exact (C1_block_builder ['h', 'i', '\n', 'y']).2 (mkParagraph ['h', 'i'])
      (by rw [show processTextToBlocks ['h', 'i', '\n', 'y']
            = [mkParagraph ['h', 'i'], mkParagraph ['y']] from rfl]
          exact List.mem_cons_self _ _)

/-- Claim C9 (confirmed): a line of length at most `c` becomes exactly one
block whose content is that line (so an input exactly at the limit gives
one block, and the empty input gives a single empty-text block); a line
longer than `c` becomes at least two contiguous blocks, each of length at
most `c`, whose contents concatenate to the line exactly and in order; a
120-character line with limit 50 yields blocks of lengths 50, 50, 20; and
splitting tolerates a `\r` before the `\n`. -/
theorem C9_line_behaviour (c : Nat) (hc : 0 < c) (line : List Char) :
    (line.length ≤ c → lineBlocks c line = [mkParagraph line]
      ∧ blockText (mkParagraph line) = line)
    ∧ (c < line.length →
        blocksConcat (lineBlocks c line) = line
        ∧ (∀ b ∈ lineBlocks c line, (blockText b).length ≤ c)
        ∧ 2 ≤ (lineBlocks c line).length)
    ∧ processTextToBlocksC c [] = [mkParagraph []]
    ∧ (processTextToBlocksC 50 (List.replicate 120 'a')).map (fun b => (blockText b).length)
        = [50, 50, 20]
    ∧ processTextToBlocksC c ['x', '\r', '\n', 'y'] = [mkParagraph ['x'], mkParagraph ['y']] := by
  refine ⟨fun h => ⟨lineBlocks_eq_single h, blockText_mkParagraph line⟩,
    fun h => ⟨lineBlocks_concat hc line, lineBlocks_sizes, ?_⟩, ?_,
    by set_option maxRecDepth 4000 in decide, ?_⟩
  · rw [lineBlocks_eq_chunks (not_le.mpr h), List.length_map]
    exact chunkLine_two hc h
  · unfold processTextToBlocksC
    rw [show splitLines [] = [[]] from rfl]
    rw [List.map_singleton, lineBlocks_eq_single (by simp)]
    simp
  · unfold processTextToBlocksC
    rw [show splitLines ['x', '\r', '\n', 'y'] = [['x'], ['y']] from rfl]
    simp only [List.map_cons, List.map_nil]
    rw [lineBlocks_eq_single (by simpa using hc), lineBlocks_eq_single (by simpa using hc)]
    simp

/-- Witness for C9: limit 2 with the two-character line `"ab"` — input
exactly at the limit produces exactly one block. -/
theorem C9_line_behaviour_witness :
    0 < 2 ∧ lineBlocks 2 ['a', 'b'] = [mkParagraph ['a', 'b']] :=
  ⟨by decide, ((C9_line_behaviour 2 (by decide) ['a', 'b']).1 (by decide)).1⟩

/-- Claim C10 (confirmed): `appendDocumentContent` with empty text
returns immediately: no conversion, no remote call of any kind, and no
error — the empty trace. -/
theorem C10_empty_append (env : Env) (isMarkdown : Bool) :
    appendDocumentContent env [] isMarkdown = Except.ok [] := rfl

/-! ## Supporting lemmas: the Batch Dispatcher -/

lemma insertLoopFuel_flatten :
    ∀ (fuel idx : Nat) (blocks : List JBlock), blocks.length ≤ fuel →
      ((insertLoopFuel fuel idx blocks).map InsertCall.children).flatten = blocks := by
  intro fuel
  induction fuel with
  | zero =>
    intro idx blocks h
    have hb : blocks = [] := List.eq_nil_of_length_eq_zero (Nat.le_zero.mp h)
    subst hb; simp [insertLoopFuel]
  | succ n ih =>
    intro idx blocks h
    cases blocks with
    | nil => simp [insertLoopFuel]
    | cons a as =>
      have hdrop : (List.drop MAX_BLOCKS_PER_CALL (a :: as)).length ≤ n := by
        simp only [List.length_drop, List.length_cons]
        simp only [List.length_cons] at h
        simp [MAX_BLOCKS_PER_CALL]
        omega
      simp only [insertLoopFuel, List.map_cons, List.flatten_cons]
      rw [ih _ _ hdrop, List.take_append_drop]

lemma insertLoopFuel_sizes :
    ∀ (fuel idx : Nat) (blocks : List JBlock),
      ∀ call ∈ insertLoopFuel fuel idx blocks,
        call.children.length ≤ MAX_BLOCKS_PER_CALL := by
  intro fuel
  induction fuel with
  | zero => intro idx blocks call hc; simp [insertLoopFuel] at hc
  | succ n ih =>
    intro idx blocks call hc
    cases blocks with
    | nil => simp [insertLoopFuel] at hc
    | cons a as =>
      simp only [insertLoopFuel, List.mem_cons] at hc
      rcases hc with rfl | hc
      · show (List.take MAX_BLOCKS_PER_CALL (a :: as)).length ≤ MAX_BLOCKS_PER_CALL
        rw [List.length_take]
        exact Nat.min_le_left _ _
      · exact ih _ _ call hc

lemma insertLoopFuel_indexed :
    ∀ (fuel idx : Nat) (blocks : List JBlock),
      callsWellIndexed idx (insertLoopFuel fuel idx blocks) := by
  intro fuel
  induction fuel with
  | zero => intro idx blocks; simp [insertLoopFuel, callsWellIndexed]
  | succ n ih =>
    intro idx blocks
    cases blocks with
    | nil => simp [insertLoopFuel, callsWellIndexed]
    | cons a as =>
      simp only [insertLoopFuel]
      exact ⟨rfl, ih _ _⟩

lemma insertLoopFuel_length :
    ∀ (fuel idx : Nat) (blocks : List JBlock), blocks.length ≤ fuel →
      (insertLoopFuel fuel idx blocks).length = (blocks.length + 49) / 50 := by
  intro fuel
  induction fuel with
  | zero =>
    intro idx blocks h
    have hb : blocks = [] := List.eq_nil_of_length_eq_zero (Nat.le_zero.mp h)
    subst hb; simp [insertLoopFuel]
  | succ n ih =>
    intro idx blocks h
    cases blocks with
    | nil => simp [insertLoopFuel]
    | cons a as =>
      have hdrop : (List.drop MAX_BLOCKS_PER_CALL (a :: as)).length ≤ n := by
        simp only [List.length_drop, List.length_cons]
        simp only [List.length_cons] at h
        simp [MAX_BLOCKS_PER_CALL]
        omega
      simp only [insertLoopFuel, List.length_cons]
      rw [ih _ _ hdrop]
      simp only [List.length_drop, List.length_cons, MAX_BLOCKS_PER_CALL]
      omega

lemma insertCalls_flatten (start : Nat) (blocks : List JBlock) :
    ((insertCalls start blocks).map InsertCall.children).flatten = blocks := by
  unfold insertCalls
  by_cases h : blocks.length ≤ MAX_BLOCKS_PER_CALL
  · rw [if_pos h]; simp
  · rw [if_neg h]; exact insertLoopFuel_flatten _ _ _ le_rfl

lemma insertCalls_sizes (start : Nat) (blocks : List JBlock) :
    ∀ call ∈ insertCalls start blocks, call.children.length ≤ MAX_BLOCKS_PER_CALL := by
  intro call hc
  unfold insertCalls at hc
  by_cases h : blocks.length ≤ MAX_BLOCKS_PER_CALL
  · rw [if_pos h] at hc
    simp only [List.mem_singleton] at hc
    subst hc; exact h
  · rw [if_neg h] at hc
    exact insertLoopFuel_sizes _ _ _ call hc

lemma insertCalls_indexed (start : Nat) (blocks : List JBlock) :
    callsWellIndexed start (insertCalls start blocks) := by
  unfold insertCalls
  by_cases h : blocks.length ≤ MAX_BLOCKS_PER_CALL
  · rw [if_pos h]; exact ⟨rfl, trivial⟩
  · rw [if_neg h]; exact insertLoopFuel_indexed _ _ _

lemma insertCalls_length (start : Nat) (blocks : List JBlock) (h : blocks ≠ []) :
    (insertCalls start blocks).length = (blocks.length + 49) / 50 := by
  unfold insertCalls
  have hpos : 0 < blocks.length := List.length_pos.mpr h
  by_cases hle : blocks.length ≤ MAX_BLOCKS_PER_CALL
  · rw [if_pos hle]
    simp only [List.length_singleton]
    simp only [MAX_BLOCKS_PER_CALL] at hle
    omega
  · rw [if_neg hle]
    exact insertLoopFuel_length _ _ _ le_rfl

/-! ## Claim C3 -/

/-- Claim C3 (confirmed): for every non-empty block sequence (the
create-with-content path always produces at least one block) and every
starting index, `_insertContentToDocument`'s dispatch issues exactly
`⌈N/50⌉` insert calls, each carrying at most `MAX_BLOCKS_PER_CALL = 50`
blocks, together covering the sequence exactly and in order, and each
call's index equals the starting index plus the number of blocks carried
by the prior calls; in particular 120 blocks from index 0 give 3 calls of
sizes 50, 50, 20 at indices 0, 50, 100. -/
theorem C3_batch_dispatcher (blocks : List JBlock) (start : Nat) (h : blocks ≠ []) :
    (insertCalls start blocks).length = (blocks.length + 49) / 50
    ∧ (∀ call ∈ insertCalls start blocks, call.children.length ≤ MAX_BLOCKS_PER_CALL)
    ∧ ((insertCalls start blocks).map InsertCall.children).flatten = blocks
    ∧ callsWellIndexed start (insertCalls start blocks)
    ∧ ((insertCalls 0 (List.replicate 120 (mkParagraph []))).map
        (fun call => (call.index, call.children.length))) = [(0, 50), (50, 50), (100, 20)] :=
  ⟨insertCalls_length start blocks h, insertCalls_sizes start blocks,
    insertCalls_flatten start blocks, insertCalls_indexed start blocks,
    by set_option maxRecDepth 4000 in decide⟩

/-- Witness for C3: the 120-block scenario itself satisfies the
hypothesis and yields `⌈120/50⌉ = 3` calls. -/
theorem C3_batch_dispatcher_witness :
    List.replicate 120 (mkParagraph []) ≠ ([] : List JBlock)
    ∧ (insertCalls 0 (List.replicate 120 (mkParagraph []))).length = (120 + 49) / 50 := by
  have hne : List.replicate 120 (mkParagraph []) ≠ ([] : List JBlock) :=
    List.ne_nil_of_length_pos (by simp)
  refine ⟨hne, ?_⟩
  have hlen := (C3_batch_dispatcher (List.replicate 120 (mkParagraph [])) 0 hne).1
  simpa using hlen

/-! ## Supporting lemmas: service traces -/

lemma appendTrace_with_page (env : Env) (content : List Char) (isMarkdown : Bool)
    (pb : DocBlock) (hpb : pageBlockOf env = some pb) :
    _appendContentTrace env content isMarkdown =
      convCallsOf content isMarkdown ++
        [ApiCall.documentBlockList,
         ApiCall.blockChildrenCreate (childCount pb) (contentBlocks env content isMarkdown)] := by
  have hmem : pb ∈ env.docBlocks := List.mem_of_find?_eq_some hpb
  have hlen : 0 < env.docBlocks.length := List.length_pos.mpr (List.ne_nil_of_mem hmem)
  simp only [_appendContentTrace]
  rw [if_pos hlen, hpb]
  simp

lemma appendTrace_no_page (env : Env) (content : List Char) (isMarkdown : Bool)
    (hnone : pageBlockOf env = none) :
    _appendContentTrace env content isMarkdown =
      convCallsOf content isMarkdown ++ [ApiCall.documentBlockList] := by
  simp only [_appendContentTrace]
  by_cases hlen : env.docBlocks.length > 0
  · rw [if_pos hlen, hnone]
  · rw [if_neg hlen]

lemma insertTrace_with_page (env : Env) (content : List Char) (isMarkdown : Bool)
    (pb : DocBlock) (hpb : pageBlockOf env = some pb) :
    _insertContentTrace env content isMarkdown =
      convCallsOf content isMarkdown ++ [ApiCall.documentBlockList] ++
        toApiCalls (insertCalls (childCount pb) (contentBlocks env content isMarkdown)) := by
  have hmem : pb ∈ env.docBlocks := List.mem_of_find?_eq_some hpb
  have hlen : 0 < env.docBlocks.length := List.length_pos.mpr (List.ne_nil_of_mem hmem)
  simp only [_insertContentTrace]
  rw [if_pos hlen, hpb]

lemma insertTrace_no_page (env : Env) (content : List Char) (isMarkdown : Bool)
    (hnone : pageBlockOf env = none) :
    _insertContentTrace env content isMarkdown =
      convCallsOf content isMarkdown ++ [ApiCall.documentBlockList] := by
  simp only [_insertContentTrace]
  by_cases hlen : env.docBlocks.length > 0
  · rw [if_pos hlen, hnone]
  · rw [if_neg hlen]

lemma appendDoc_with_page (env : Env) (content : List Char) (isMarkdown : Bool)
    (pb : DocBlock) (hc : content ≠ []) (hpb : pageBlockOf env = some pb) :
    appendDocumentContent env content isMarkdown =
      Except.ok (convCallsOf content isMarkdown ++
        [ApiCall.documentBlockList,
         ApiCall.blockChildrenCreate (childCount pb) (contentBlocks env content isMarkdown)]) := by
  have hie : content.isEmpty = false := by
    cases content with
    | nil => exact absurd rfl hc
    | cons a as => rfl
  unfold appendDocumentContent
  rw [hie]
  simp only [Bool.false_eq_true, if_false]
  unfold _appendContentToDocument
  rw [appendTrace_with_page env content isMarkdown pb hpb]

lemma convCallsOf_no_delete (content : List Char) (isMarkdown : Bool) :
    ∀ call ∈ convCallsOf content isMarkdown, apiIsDelete call = false := by
  cases isMarkdown with
  | false => simp [convCallsOf]
  | true => simp [convCallsOf, apiIsDelete]

lemma insertTrace_no_delete (env : Env) (content : List Char) (isMarkdown : Bool) :
    ∀ call ∈ _insertContentTrace env content isMarkdown, apiIsDelete call = false := by
  intro call hcall
  simp only [_insertContentTrace] at hcall
  have hpre : ∀ c ∈ convCallsOf content isMarkdown ++ [ApiCall.documentBlockList],
      apiIsDelete c = false := by
    intro c hc
    rcases List.mem_append.mp hc with hc | hc
    · exact convCallsOf_no_delete content isMarkdown c hc
    · simp only [List.mem_singleton] at hc
      subst hc; rfl
  by_cases hlen : env.docBlocks.length > 0
  · rw [if_pos hlen] at hcall
    cases hpb : pageBlockOf env with
    | some pb =>
      rw [hpb] at hcall
      rcases List.mem_append.mp hcall with hc | hc
      · exact hpre call hc
      · rw [toApiCalls, List.mem_map] at hc
        obtain ⟨c, _, rfl⟩ := hc
        rfl
    | none =>
      rw [hpb] at hcall
      exact hpre call hcall
  · rw [if_neg hlen] at hcall
    exact hpre call hcall

/-! ## Claim C2 -/

set_option maxRecDepth 8000 in
/-- Claim C2, counterexample: 51 one-character lines convert to 51
blocks, and `appendDocumentContent` issues a single insert call carrying
all 51 of them — more than `MAX_BLOCKS_PER_CALL = 50` — so the append
path does not batch through the dispatcher as the claim states. -/
theorem C2_counterexample :
    appendDocumentContent envPage content51 false =
      Except.ok [ApiCall.documentBlockList,
        ApiCall.blockChildrenCreate 0 (processTextToBlocks content51)]
    ∧ (processTextToBlocks content51).length = 51
    ∧ insertChildCounts [ApiCall.documentBlockList,
        ApiCall.blockChildrenCreate 0 (processTextToBlocks content51)] = [51]
    ∧ ¬ 51 ≤ MAX_BLOCKS_PER_CALL := by
  refine ⟨rfl, by decide, by decide, by decide⟩

/-- Claim C2 (amended): for every environment whose listing holds a page
block and every non-empty text, `appendDocumentContent` issues — after
the optional convert call and the block listing — exactly one
insert-children call, carrying all of the converted blocks (however
many), at insertion index equal to the page block's current child count;
it does not split the blocks into batches of 50. -/
theorem C2_append_single_call (env : Env) (content : List Char) (isMarkdown : Bool)
    (pb : DocBlock) (hc : content ≠ []) (hpb : pageBlockOf env = some pb) :
    appendDocumentContent env content isMarkdown =
      Except.ok (convCallsOf content isMarkdown ++
        [ApiCall.documentBlockList,
         ApiCall.blockChildrenCreate (childCount pb) (contentBlocks env content isMarkdown)])
    ∧ insertChildCounts
        (convCallsOf content isMarkdown ++
          [ApiCall.documentBlockList,
           ApiCall.blockChildrenCreate (childCount pb) (contentBlocks env content isMarkdown)])
        = [(contentBlocks env content isMarkdown).length] := by
  constructor
  · exact appendDoc_with_page env content isMarkdown pb hc hpb
  · cases isMarkdown with
    | false => simp [insertChildCounts, convCallsOf]
    | true => simp [insertChildCounts, convCallsOf]

/-- Witness for C2 (amended): the one-character text `"x"` appended to a
document whose page block has no children. -/
theorem C2_append_single_call_witness :
    (['x'] : List Char) ≠ []
    ∧ pageBlockOf envPage = some pageOnlyDoc
    ∧ appendDocumentContent envPage ['x'] false =
        Except.ok [ApiCall.documentBlockList,
          ApiCall.blockChildrenCreate (childCount pageOnlyDoc)
            (contentBlocks envPage ['x'] false)] := by
  refine ⟨by decide, rfl, ?_⟩
  have h := (C2_append_single_call envPage ['x'] false pageOnlyDoc (by decide) rfl).1
  simpa [convCallsOf] using h

/-! ## Claim C5 -/

/-- Claim C5, counterexample: with a listing holding one non-page block,
both the insert path and the append path complete successfully
(`Except.ok`), issuing only the listing call — no insert call and no
error — instead of failing as the claim states. -/
theorem C5_counterexample :
    _insertContentToDocument envNoPage ['x'] false = Except.ok [ApiCall.documentBlockList]
    ∧ _appendContentToDocument envNoPage ['x'] false = Except.ok [ApiCall.documentBlockList] :=
  ⟨rfl, rfl⟩

/-- Claim C5 (amended): when the block listing holds no page block, the
content-insert and content-append operations silently skip insertion:
they complete without error, their traces contain no insert-children
call, and the error the claim expects is raised only by the helper
`_getPageBlock`, which these paths never invoke. -/
theorem C5_missing_page_block (env : Env) (content : List Char) (isMarkdown : Bool)
    (hnone : pageBlockOf env = none) :
    (∃ t, _insertContentToDocument env content isMarkdown = Except.ok t
        ∧ t.filter apiIsInsert = [])
    ∧ (∃ t, _appendContentToDocument env content isMarkdown = Except.ok t
        ∧ t.filter apiIsInsert = [])
    ∧ _getPageBlock env.docBlocks = Except.error "Unable to locate page block for document" := by
  have hfilter : (convCallsOf content isMarkdown ++ [ApiCall.documentBlockList]).filter
      apiIsInsert = [] := by
    cases isMarkdown with
    | false => simp [convCallsOf, apiIsInsert]
    | true => simp [convCallsOf, apiIsInsert]
  refine ⟨⟨convCallsOf content isMarkdown ++ [ApiCall.documentBlockList], ?_, hfilter⟩,
    ⟨convCallsOf content isMarkdown ++ [ApiCall.documentBlockList], ?_, hfilter⟩, ?_⟩
  · unfold _insertContentToDocument
    rw [insertTrace_no_page env content isMarkdown hnone]
  · unfold _appendContentToDocument
    rw [appendTrace_no_page env content isMarkdown hnone]
  · unfold _getPageBlock
    have hfind : env.docBlocks.find? (fun b => b.page) = none := hnone
    rw [hfind]

/-- Witness for C5 (amended): the concrete page-block-free environment. -/
theorem C5_missing_page_block_witness :
    pageBlockOf envNoPage = none
    ∧ ((∃ t, _insertContentToDocument envNoPage ['x'] false = Except.ok t
          ∧ t.filter apiIsInsert = [])
      ∧ (∃ t, _appendContentToDocument envNoPage ['x'] false = Except.ok t
          ∧ t.filter apiIsInsert = [])
      ∧ _getPageBlock envNoPage.docBlocks
          = Except.error "Unable to locate page block for document") :=
  ⟨rfl, C5_missing_page_block envNoPage ['x'] false rfl⟩

/-! ## Claim C7 -/

/-- Claim C7 (confirmed): when the markdown-convert call rejects, or when
its response reshapes to no blocks, `_convertContentToBlocks` returns the
plain-text paragraph blocks of the raw content; consequently
`appendDocumentContent` with the markdown flag still succeeds against a
rejecting convert endpoint, inserting the plain-text fallback blocks. -/
theorem C7_conversion_fallback (e : String) (d : ConvData) (env : Env)
    (content : List Char) (pb : DocBlock)
    (henv : env.convertResult = Except.error e)
    (hpb : pageBlockOf env = some pb) (hc : content ≠ []) :
    _convertContentToBlocks (Except.error e) content = processTextToBlocks content
    ∧ (_reshapeConvertedBlocks d = [] →
        _convertContentToBlocks (Except.ok d) content = processTextToBlocks content)
    ∧ appendDocumentContent env content true =
        Except.ok [ApiCall.documentConvert content, ApiCall.documentBlockList,
          ApiCall.blockChildrenCreate (childCount pb) (processTextToBlocks content)] := by
  refine ⟨rfl, ?_, ?_⟩
  · intro h
    simp [_convertContentToBlocks, h]
  · have happ := appendDoc_with_page env content true pb hc hpb
    have hblocks : contentBlocks env content true = processTextToBlocks content := by
      simp [contentBlocks, henv, _convertContentToBlocks]
    rw [hblocks] at happ
    simpa [convCallsOf] using happ

/-! ## Supporting lemmas: the Block-Tree Reshaper -/

lemma buildBlock_of_lookup_none {m : List (String × RawBlock)} {bid : String}
    (h : lookupBlock m bid = none) :
    ∀ fuel, buildBlock m fuel bid = none := by
  intro fuel
  cases fuel with
  | zero => rfl
  | succ n => simp [buildBlock, h]

lemma buildBlock_noIds :
    ∀ (fuel : Nat) (m : List (String × RawBlock)) (bid : String) (b : JBlock),
      buildBlock m fuel bid = some b → NoIds b := by
  intro fuel
  induction fuel with
  | zero => intro m bid b h; simp [buildBlock] at h
  | succ n ih =>
    intro m bid b h
    simp only [buildBlock] at h
    cases hlook : lookupBlock m bid with
    | none => rw [hlook] at h; simp at h
    | some raw =>
      rw [hlook] at h
      simp only [Option.some.injEq] at h
      subst h
      refine NoIds.intro _ _ _ ?_
      intro cb hcb
      by_cases hce : ((raw.children.getD []).filterMap (fun cid => buildBlock m n cid)).isEmpty
      · rw [if_pos hce] at hcb
        simp at hcb
      · rw [if_neg hce] at hcb
        simp only [Option.getD_some] at hcb
        rw [List.mem_filterMap] at hcb
        obtain ⟨cid, _, hcid⟩ := hcb
        exact ih m cid cb hcid

lemma buildBlock_children_ne_nil :
    ∀ (fuel : Nat) (m : List (String × RawBlock)) (bid : String) (b : JBlock)
      (cs : List JBlock),
      buildBlock m fuel bid = some b → b.childrenOf = some cs → cs ≠ [] := by
  intro fuel m bid b cs h hcs
  cases fuel with
  | zero => simp [buildBlock] at h
  | succ n =>
    simp only [buildBlock] at h
    cases hlook : lookupBlock m bid with
    | none => rw [hlook] at h; simp at h
    | some raw =>
      rw [hlook] at h
      simp only [Option.some.injEq] at h
      subst h
      by_cases hce : ((raw.children.getD []).filterMap (fun cid => buildBlock m n cid)).isEmpty
      · rw [show (JBlock.mk none none raw.block_type raw.text
            (if ((raw.children.getD []).filterMap (fun cid => buildBlock m n cid)).isEmpty
              then none
              else some ((raw.children.getD []).filterMap
                (fun cid => buildBlock m n cid)))).childrenOf
            = (if ((raw.children.getD []).filterMap (fun cid => buildBlock m n cid)).isEmpty
              then none
              else some ((raw.children.getD []).filterMap
                (fun cid => buildBlock m n cid))) from rfl, if_pos hce] at hcs
        simp at hcs
      · rw [show (JBlock.mk none none raw.block_type raw.text
            (if ((raw.children.getD []).filterMap (fun cid => buildBlock m n cid)).isEmpty
              then none
              else some ((raw.children.getD []).filterMap
                (fun cid => buildBlock m n cid)))).childrenOf
            = (if ((raw.children.getD []).filterMap (fun cid => buildBlock m n cid)).isEmpty
              then none
              else some ((raw.children.getD []).filterMap
                (fun cid => buildBlock m n cid))) from rfl, if_neg hce] at hcs
        simp only [Option.some.injEq] at hcs
        subst hcs
        intro hnil
        rw [hnil] at hce
        exact hce rfl

lemma filterMap_buildBlock_filter (m : List (String × RawBlock)) (fuel : Nat)
    (ids : List String) :
    ids.filterMap (fun i => buildBlock m fuel i)
      = (ids.filter (fun i => (lookupBlock m i).isSome)).filterMap
          (fun i => buildBlock m fuel i) := by
  induction ids with
  | nil => rfl
  | cons i is ih =>
    by_cases h : (lookupBlock m i).isSome
    · cases hb : buildBlock m fuel i with
      | none => simp [List.filter_cons, h, List.filterMap_cons, hb, ih]
      | some b => simp [List.filter_cons, h, List.filterMap_cons, hb, ih]
    · have hF : (lookupBlock m i).isSome = false := by simpa using h
      have hnone : lookupBlock m i = none := Option.not_isSome_iff_eq_none.mp (by simp [hF])
      have hbb : buildBlock m fuel i = none := buildBlock_of_lookup_none hnone fuel
      simp [List.filter_cons, hF, List.filterMap_cons, hbb, ih]

lemma reshape_noIds (d : ConvData) : ∀ b ∈ _reshapeConvertedBlocks d, NoIds b := by
  intro b hb
  obtain ⟨bl, ids⟩ := d
  cases bl with
  | none => simp [_reshapeConvertedBlocks] at hb
  | some bl =>
    cases ids with
    | none => simp [_reshapeConvertedBlocks] at hb
    | some ids =>
      simp only [_reshapeConvertedBlocks] at hb
      by_cases hi : ids.isEmpty
      · rw [if_pos hi] at hb; simp at hb
      · rw [if_neg hi] at hb
        rw [List.mem_filterMap] at hb
        obtain ⟨i, _, hbuild⟩ := hb
        exact buildBlock_noIds _ _ i b hbuild

lemma reshape_empty_map (ids : List String) :
    _reshapeConvertedBlocks ⟨some [], some ids⟩ = [] := by
  simp only [_reshapeConvertedBlocks]
  by_cases h : ids.isEmpty
  · rw [if_pos h]
  · rw [if_neg h]
    rw [List.filterMap_eq_nil_iff]
    intro i _
    exact buildBlock_of_lookup_none
      (show lookupBlock (buildBlockMap []) i = none from rfl) _

/-! ## Claim C4 -/

/-- Claim C4 (confirmed): no block produced by the reshaper carries a
block id or parent id at any depth; an id absent from the flat map
builds to nothing and can be deleted from any id list (root or child)
without changing the output; a children field is present on an output
block only when the resolved child sequence is non-empty; and an empty
flat map, an empty root-id list, or an absent root-id list each give the
empty output sequence. -/
theorem C4_reshaper (d : ConvData) (m : List (String × RawBlock)) (fuel : Nat)
    (bid : String) (ids : List String) (bl : Option (List RawBlock)) :
    (∀ b ∈ _reshapeConvertedBlocks d, NoIds b)
    ∧ (lookupBlock m bid = none → buildBlock m fuel bid = none)
    ∧ (ids.filterMap (fun i => buildBlock m fuel i)
        = (ids.filter (fun i => (lookupBlock m i).isSome)).filterMap
            (fun i => buildBlock m fuel i))
    ∧ (∀ b cs, buildBlock m fuel bid = some b → b.childrenOf = some cs → cs ≠ [])
    ∧ _reshapeConvertedBlocks ⟨some [], some ids⟩ = []
    ∧ _reshapeConvertedBlocks ⟨bl, some []⟩ = []
    ∧ _reshapeConvertedBlocks ⟨bl, none⟩ = [] := by
  refine ⟨reshape_noIds d, fun h => buildBlock_of_lookup_none h fuel,
    filterMap_buildBlock_filter m fuel ids,
    fun b cs hb hcs => buildBlock_children_ne_nil fuel m bid b cs hb hcs,
    reshape_empty_map ids, ?_, ?_⟩
  · cases bl <;> simp [_reshapeConvertedBlocks]
  · cases bl <;> simp [_reshapeConvertedBlocks]

/-- Witness for C4: the two-block conversion response `convSample`, whose
root list and child list each contain one dangling id. -/
theorem C4_reshaper_witness :
    _reshapeConvertedBlocks convSample = [sampleOut]
    ∧ NoIds sampleOut
    ∧ lookupBlock (buildBlockMap [rawRoot, rawChild]) "missing" = none
    ∧ buildBlock (buildBlockMap [rawRoot, rawChild]) 3 "missing" = none := by
  have hre : _reshapeConvertedBlocks convSample = [sampleOut] := rfl
  refine ⟨hre, ?_, rfl, ?_⟩
  · exact (C4_reshaper convSample [] 0 "" [] none).1 sampleOut
      (by rw [hre]; exact List.mem_cons_self _ _)
  · exact (C4_reshaper convSample (buildBlockMap [rawRoot, rawChild]) 3 "missing" [] none).2.1 rfl

/-! ## Claim C6 -/

/-- Claim C6 (confirmed, against the spec-modelled `addCollaborators`):
one add call is issued per entry, in order, and every entry's call is
issued whatever the outcomes of the other entries' calls are — a
failing entry never prevents the remaining entries from being sent. -/
theorem C6_collaborators (callSucceeds : CollaboratorEntry → Bool)
    (entries : List CollaboratorEntry) :
    (addCollaborators callSucceeds entries).map Prod.fst = entries
    ∧ (addCollaborators callSucceeds entries).length = entries.length
    ∧ ∀ e ∈ entries, (e, callSucceeds e) ∈ addCollaborators callSucceeds entries := by
  refine ⟨?_, ?_, ?_⟩
  · induction entries with
    | nil => rfl
    | cons e es ih => simp only [addCollaborators, List.map_cons] at ih ⊢; rw [ih]
  · simp [addCollaborators]
  · intro e he
    exact List.mem_map_of_mem _ he

/-- Witness for C6: three entries of which the second fails — all three
calls are still issued. -/
theorem C6_collaborators_witness :
    (addCollaborators failSecond [collabA, collabB, collabC]).map Prod.fst
        = [collabA, collabB, collabC]
    ∧ failSecond collabB = false
    ∧ (collabB, failSecond collabB) ∈ addCollaborators failSecond [collabA, collabB, collabC]
    ∧ (collabA, failSecond collabA) ∈ addCollaborators failSecond [collabA, collabB, collabC]
    ∧ (collabC, failSecond collabC) ∈ addCollaborators failSecond [collabA, collabB, collabC] := by
  have h := C6_collaborators failSecond [collabA, collabB, collabC]
  exact ⟨h.1, rfl, h.2.2 collabB (by decide), h.2.2 collabA (by decide),
    h.2.2 collabC (by decide)⟩

/-! ## Claim C8 -/

/-- Claim C8 (confirmed): when the wiki move rejects after the document
was created, `createDocument` returns the original document record
unchanged — no wiki-node token, no moved flag — and its trace contains
no delete call; and in general a delete call appears in a
`createDocument` trace only when the move succeeded with a node, whose
token the result then carries. -/
theorem C8_wiki_move_failure (env : Env) (title : List Char) (content : Option (List Char))
    (isMarkdown : Bool) (sid nid : String) (doc : DocumentRecord) (e : String)
    (h1 : env.createResponse = some doc) (h2 : doc.document_id ≠ "")
    (h3 : env.moveResult = Except.error e) (h5 : sid ≠ "") (h6 : nid ≠ "") :
    (∃ trace, createDocument env title content isMarkdown true sid nid
        = Except.ok (⟨doc, none, false⟩, trace)
      ∧ ∀ call ∈ trace, apiIsDelete call = false)
    ∧ (∀ (env2 : Env) (t2 : List Char) (c2 : Option (List Char)) (m2 w2 : Bool)
        (s2 n2 : String) (res : CreateResult) (trace2 : List ApiCall),
        createDocument env2 t2 c2 m2 w2 s2 n2 = Except.ok (res, trace2) →
        (∃ call ∈ trace2, apiIsDelete call = true) →
        res.moved_to_wiki = true ∧ ∃ node, env2.moveResult = Except.ok (some node)
          ∧ res.wiki_node_token = some node.node_token) := by
  constructor
  · refine ⟨[ApiCall.documentCreate title] ++
      (match content with
        | some c => _insertContentTrace env c isMarkdown
        | none => []) ++ [ApiCall.wikiMove sid nid], ?_, ?_⟩
    · simp only [createDocument, h1]
      rw [if_neg h2, if_pos ⟨by trivial, h5, h6⟩, h3]
    · intro call hcall
      rcases List.mem_append.mp hcall with hcall | hcall
      · rcases List.mem_append.mp hcall with hcall | hcall
        · simp only [List.mem_singleton] at hcall
          subst hcall; rfl
        · cases content with
          | none => simp at hcall
          | some c => exact insertTrace_no_delete env c isMarkdown call hcall
      · simp only [List.mem_singleton] at hcall
        subst hcall; rfl
  · intro env2 t2 c2 m2 w2 s2 n2 res trace2 hcreate hdel
    obtain ⟨dcall, hdmem, hdtrue⟩ := hdel
    have hins : ∀ call ∈ (match c2 with
        | some c => _insertContentTrace env2 c m2
        | none => ([] : List ApiCall)), apiIsDelete call = false := by
      cases c2 with
      | none => simp
      | some c => exact insertTrace_no_delete env2 c m2
    cases hresp : env2.createResponse with
    | none => simp [createDocument, hresp] at hcreate
    | some d =>
      by_cases hid : d.document_id = ""
      · simp [createDocument, hresp, hid] at hcreate
      · simp only [createDocument, hresp, if_neg hid] at hcreate
        by_cases hwiki : w2 = true ∧ s2 ≠ "" ∧ n2 ≠ ""
        · rw [if_pos hwiki] at hcreate
          cases hmove : env2.moveResult with
          | error me =>
            rw [hmove] at hcreate
            simp only [Except.ok.injEq, Prod.mk.injEq] at hcreate
            obtain ⟨hres, htrace⟩ := hcreate
            subst htrace
            rcases List.mem_append.mp hdmem with hcall | hcall
            · rcases List.mem_append.mp hcall with hcall | hcall
              · simp only [List.mem_singleton] at hcall
                subst hcall; simp [apiIsDelete] at hdtrue
              · rw [hins dcall hcall] at hdtrue
                exact absurd hdtrue (by simp)
            · simp only [List.mem_singleton] at hcall
              subst hcall; simp [apiIsDelete] at hdtrue
          | ok onode =>
            cases onode with
            | none =>
              rw [hmove] at hcreate
              simp only [Except.ok.injEq, Prod.mk.injEq] at hcreate
              obtain ⟨hres, htrace⟩ := hcreate
              subst htrace
              rcases List.mem_append.mp hdmem with hcall | hcall
              · rcases List.mem_append.mp hcall with hcall | hcall
                · simp only [List.mem_singleton] at hcall
                  subst hcall; simp [apiIsDelete] at hdtrue
                · rw [hins dcall hcall] at hdtrue
                  exact absurd hdtrue (by simp)
              · simp only [List.mem_singleton] at hcall
                subst hcall; simp [apiIsDelete] at hdtrue
            | some node =>
              rw [hmove] at hcreate
              simp only [Except.ok.injEq, Prod.mk.injEq] at hcreate
              obtain ⟨hres, htrace⟩ := hcreate
              subst hres
              exact ⟨rfl, node, rfl, rfl⟩
        · rw [if_neg hwiki] at hcreate
          simp only [Except.ok.injEq, Prod.mk.injEq] at hcreate
          obtain ⟨hres, htrace⟩ := hcreate
          subst htrace
          rcases List.mem_append.mp hdmem with hcall | hcall
          · simp only [List.mem_singleton] at hcall
            subst hcall; simp [apiIsDelete] at hdtrue
          · rw [hins dcall hcall] at hdtrue
            exact absurd hdtrue (by simp)

/-- Witness for C8: a successful creation of `docA` followed by a
rejected wiki move. -/
theorem C8_wiki_move_failure_witness :
    envC8.createResponse = some docA
    ∧ docA.document_id ≠ ""
    ∧ envC8.moveResult = Except.error "movefail"
    ∧ (∃ trace, createDocument envC8 ['T'] none false true "s" "n"
        = Except.ok (⟨docA, none, false⟩, trace)
      ∧ ∀ call ∈ trace, apiIsDelete call = false) :=
  ⟨rfl, by decide, rfl,
    (C8_wiki_move_failure envC8 ['T'] none false "s" "n" docA "movefail" rfl (by decide)
      rfl (by decide) (by decide)).1⟩

/-- Witness for C7: the rejecting environment `envPage` with content
`"x"` and the malformed (empty) conversion response. -/
theorem C7_conversion_fallback_witness :
    envPage.convertResult = Except.error "net"
    ∧ pageBlockOf envPage = some pageOnlyDoc
    ∧ (['x'] : List Char) ≠ []
    ∧ _reshapeConvertedBlocks ⟨none, none⟩ = []
    ∧ appendDocumentContent envPage ['x'] true =
        Except.ok [ApiCall.documentConvert ['x'], ApiCall.documentBlockList,
          ApiCall.blockChildrenCreate (childCount pageOnlyDoc) (processTextToBlocks ['x'])] :=
  ⟨rfl, rfl, by decide, rfl,
    (C7_conversion_fallback "net" ⟨none, none⟩ envPage ['x'] pageOnlyDoc rfl rfl
      (by decide)).2.2⟩

end LarkCli
